import Mathlib

/-!
Verification of the poly-market-maker reconciliation and pricing engine.

The Python sources are embedded shallowly:
* exact decimal arithmetic on prices, balances and configuration is `ℚ`
  (Python floats are used by the program as exact decimals at the studied scale);
* the bonding-curve size formulas use `math.sqrt`, embedded as `Real.sqrt` over `ℝ`;
* Python's `round(x, d)` is round-half-to-even, embedded as `rhe`/`roundDec`;
* fallible calls are `Except`/`Option`; a `while` loop is a fuel-indexed
  recursion whose fuel bounds the number of iterations the loop can make
  (the Python loop does not terminate when the step is degenerate; claims are
  stated either for every fuel or at inputs where the fuel is sufficient).
-/

namespace PolyMM

/-! ### Round half to even (Python's `round`) -/

/-- Round a rational to an integer, ties to the even integer.
This is the semantics of Python's builtin `round`. -/
def rhe (x : ℚ) : ℤ :=
  if Int.fract x < 1/2 then ⌊x⌋
  else if 1/2 < Int.fract x then ⌊x⌋ + 1
  else if ⌊x⌋ % 2 = 0 then ⌊x⌋ else ⌊x⌋ + 1

/-- Python's `round(x, d)` for nonnegative `d`. -/
def roundDec (d : ℕ) (x : ℚ) : ℚ := (rhe (x * 10 ^ d) : ℚ) / 10 ^ d

theorem rhe_intCast (k : ℤ) : rhe (k : ℚ) = k := by
  simp [rhe, Int.fract_intCast]

theorem rhe_le {m : ℤ} {x : ℚ} (h : x < (m : ℚ) + 1/2) : rhe x ≤ m := by
  have hf : (⌊x⌋ : ℚ) ≤ x := Int.floor_le x
  have hfr : Int.fract x = x - ⌊x⌋ := Int.self_sub_floor x ▸ rfl
  unfold rhe
  split_ifs with h1 h2 h3
  · have : (⌊x⌋ : ℚ) < (m : ℚ) + 1/2 := lt_of_le_of_lt hf h
    have : (⌊x⌋ : ℚ) < (m : ℚ) + 1 := by linarith
    exact_mod_cast Int.lt_add_one_iff.mp (by exact_mod_cast this)
  · have hx : (⌊x⌋ : ℚ) + 1/2 < x := by rw [hfr] at h2; linarith
    have : (⌊x⌋ : ℚ) + 1/2 < (m : ℚ) + 1/2 := lt_trans hx h
    have : (⌊x⌋ : ℚ) < (m : ℚ) := by linarith
    have : ⌊x⌋ < m := by exact_mod_cast this
    omega
  · have hx : x = (⌊x⌋ : ℚ) + 1/2 := by
      rw [hfr] at h1 h2
      have := le_antisymm (le_of_not_lt h2) (le_of_not_lt h1)
      linarith
    rw [hx] at h
    have : (⌊x⌋ : ℚ) < (m : ℚ) := by linarith
    have : ⌊x⌋ < m := by exact_mod_cast this
    omega
  · have hx : x = (⌊x⌋ : ℚ) + 1/2 := by
      rw [hfr] at h1 h2
      have := le_antisymm (le_of_not_lt h2) (le_of_not_lt h1)
      linarith
    rw [hx] at h
    have : (⌊x⌋ : ℚ) < (m : ℚ) := by linarith
    have : ⌊x⌋ < m := by exact_mod_cast this
    omega

theorem le_rhe {m : ℤ} {x : ℚ} (h : (m : ℚ) - 1/2 < x) : m ≤ rhe x := by
  have hc : x < (⌊x⌋ : ℚ) + 1 := Int.lt_floor_add_one x
  have hfr : Int.fract x = x - ⌊x⌋ := Int.self_sub_floor x ▸ rfl
  unfold rhe
  split_ifs with h1 h2 h3
  · have hx : x < (⌊x⌋ : ℚ) + 1/2 := by rw [hfr] at h1; linarith
    have : (m : ℚ) - 1/2 < (⌊x⌋ : ℚ) + 1/2 := lt_trans h hx
    have : (m : ℚ) < (⌊x⌋ : ℚ) + 1 := by linarith
    exact_mod_cast Int.lt_add_one_iff.mp (by exact_mod_cast this)
  · have : (m : ℚ) - 1/2 < (⌊x⌋ : ℚ) + 1 := lt_trans h hc
    have : (m : ℚ) < (⌊x⌋ : ℚ) + 1 + 1 := by linarith
    have : m < ⌊x⌋ + 1 + 1 := by exact_mod_cast this
    omega
  · have hx : x = (⌊x⌋ : ℚ) + 1/2 := by
      rw [hfr] at h1 h2
      have := le_antisymm (le_of_not_lt h2) (le_of_not_lt h1)
      linarith
    rw [hx] at h
    have : (m : ℚ) < (⌊x⌋ : ℚ) + 1 := by linarith
    exact_mod_cast Int.lt_add_one_iff.mp (by exact_mod_cast this)
  · have hx : x = (⌊x⌋ : ℚ) + 1/2 := by
      rw [hfr] at h1 h2
      have := le_antisymm (le_of_not_lt h2) (le_of_not_lt h1)
      linarith
    rw [hx] at h
    have : (m : ℚ) < (⌊x⌋ : ℚ) + 1 := by linarith
    have : m < ⌊x⌋ + 1 := by exact_mod_cast this
    omega

theorem rhe_nonneg {x : ℚ} (h : 0 ≤ x) : 0 ≤ rhe x :=
  le_rhe (by linarith)

theorem rhe_neg (x : ℚ) : rhe (-x) = - rhe x := by
  by_cases hx : Int.fract x = 0
  · obtain ⟨k, hk⟩ : ∃ k : ℤ, x = (k : ℚ) := ⟨⌊x⌋, by
      have h0 := Int.self_sub_fract x
      rw [hx, sub_zero] at h0
      exact h0⟩
    subst hk
    rw [show (-(k : ℚ)) = ((-k : ℤ) : ℚ) by push_cast; ring, rhe_intCast, rhe_intCast]
  · have hfr : Int.fract (-x) = 1 - Int.fract x := Int.fract_neg hx
    have hfl : ⌊-x⌋ = -⌊x⌋ - 1 := by
      have h1 : (⌊x⌋ : ℚ) < x := lt_of_le_of_ne (Int.floor_le x) (by
        intro hcon
        exact hx (by rw [← Int.self_sub_floor, hcon, sub_self]))
      have h2 : x < (⌊x⌋ : ℚ) + 1 := Int.lt_floor_add_one x
      rw [Int.floor_eq_iff]
      constructor
      · push_cast; linarith
      · push_cast; linarith
    have hfb : 0 ≤ Int.fract x := Int.fract_nonneg x
    have hfb2 : Int.fract x < 1 := Int.fract_lt_one x
    unfold rhe
    rw [hfr, hfl]
    split_ifs with a1 a2 a3 b1 b2 b3 b4 b5 b6 b7 <;> try omega
    all_goals linarith

theorem rhe_abs (x : ℚ) : rhe |x| = |rhe x| := by
  rcases le_or_lt 0 x with h | h
  · rw [abs_of_nonneg h, abs_of_nonneg (rhe_nonneg h)]
  · have hneg : rhe x ≤ 0 := by
      have : rhe (-x) = -rhe x := rhe_neg x
      have hpos : 0 ≤ rhe (-x) := rhe_nonneg (by linarith)
      omega
    rw [abs_of_neg h, abs_of_nonpos hneg, rhe_neg]

/-- A rational lying on the grid of step `1 / 10 ^ d`. -/
def Aligned (d : ℕ) (x : ℚ) : Prop := ∃ k : ℤ, x = (k : ℚ) / 10 ^ d

theorem roundDec_aligned (d : ℕ) (x : ℚ) : Aligned d (roundDec d x) :=
  ⟨rhe (x * 10 ^ d), rfl⟩

theorem pow_ten_pos (d : ℕ) : (0 : ℚ) < 10 ^ d := by positivity

theorem roundDec_fix {d : ℕ} {x : ℚ} (h : Aligned d x) : roundDec d x = x := by
  obtain ⟨k, rfl⟩ := h
  have hp : (10 : ℚ) ^ d ≠ 0 := ne_of_gt (pow_ten_pos d)
  rw [roundDec, div_mul_cancel₀ _ hp, rhe_intCast]

theorem roundDec_le {d : ℕ} {m : ℤ} {x : ℚ} (h : x * 10 ^ d < (m : ℚ) + 1/2) :
    roundDec d x ≤ (m : ℚ) / 10 ^ d := by
  have := rhe_le h
  rw [roundDec]
  exact div_le_div_of_nonneg_right (by exact_mod_cast this) (pow_ten_pos d).le

theorem le_roundDec {d : ℕ} {m : ℤ} {x : ℚ} (h : (m : ℚ) - 1/2 < x * 10 ^ d) :
    (m : ℚ) / 10 ^ d ≤ roundDec d x := by
  have := le_rhe h
  rw [roundDec]
  exact div_le_div_of_nonneg_right (by exact_mod_cast this) (pow_ten_pos d).le

theorem roundDec_abs (d : ℕ) (x : ℚ) : roundDec d |x| = |roundDec d x| := by
  have h1 : |x| * 10 ^ d = |x * 10 ^ d| := by
    rw [abs_mul, abs_of_pos (pow_ten_pos d)]
  rw [roundDec, roundDec, h1, rhe_abs, abs_div, abs_of_pos (pow_ten_pos d), Int.cast_abs]

/-! ### Data model (token.py / order.py are declaration-only; §3 of the spec) -/

/-- Order side, `order.py`. -/
inductive Side
  | BUY
  | SELL
deriving DecidableEq, Repr

/-- The two complementary outcome tokens, `token.py`. -/
inductive TokenId
  | A
  | B
deriving DecidableEq, Repr

/-- An order intent, `order.py`: side, token, price, size.  Prices are exact
decimals (`ℚ`); sizes come from the bonding curve and live in `ℝ`. -/
structure Order where
  side : Side
  token : TokenId
  price : ℚ
  size : ℝ

/-- One price level of a competitor book, a `{"price": .., "size": ..}` dict. -/
structure BookLevel where
  price : ℚ
  size : ℚ
deriving DecidableEq, Repr

/-! ### utils.py -/

/-- `utils.math_round_down(f, sig_digits)`: floor to `sig_digits` decimals.
The source first returns `f` unchanged when its decimal string already has
exactly `sig_digits` fractional digits; on exact values that early return
coincides with the floor formula, so the embedding is the floor formula. -/
noncomputable def math_round_down (f : ℝ) (sig_digits : ℕ) : ℝ :=
  (⌊f * 10 ^ sig_digits⌋ : ℝ) / 10 ^ sig_digits

theorem math_round_down_zero (s : ℕ) : math_round_down 0 s = 0 := by
  simp [math_round_down]

theorem pow_ten_pos_real (s : ℕ) : (0 : ℝ) < 10 ^ s := by positivity

theorem math_round_down_le (f : ℝ) (s : ℕ) : math_round_down f s ≤ f := by
  rw [math_round_down, div_le_iff₀ (pow_ten_pos_real s)]
  exact Int.floor_le _

theorem math_round_down_nonneg {f : ℝ} (s : ℕ) (h : 0 ≤ f) :
    0 ≤ math_round_down f s := by
  rw [math_round_down]
  apply div_nonneg _ (pow_ten_pos_real s).le
  exact_mod_cast Int.floor_nonneg.mpr (by positivity)

/-- Modelled from the spec: `count_decimal_places` is imported by `amm.py`
from `utils.py` but is absent from the copy of `utils.py` in `src/`; per §3 of
the spec it is "the number of decimal places implied by min_tick".  For a
decimal fraction this is the least `d` with `q * 10 ^ d` integral. -/
def count_decimal_places (q : ℚ) : ℕ :=
  ((List.range 20).find? (fun d => (q * 10 ^ d).den == 1)).getD 0

/-! ### strategies/amm.py -/

/-- `AMMConfig.__init__` fields (the `isinstance` asserts are type-level). -/
structure AMMConfig where
  p_min : ℚ
  p_max : ℚ
  spread : ℚ
  delta : ℚ
  depth : ℚ
  max_collateral : ℚ
  min_tick : ℚ
  min_size : ℚ
deriving DecidableEq, Repr

/-- `AMM.__init__`: raises "Depth does not exceed spread." iff
`config.spread >= config.depth`; otherwise stores the config fields. -/
def AMM_init (_token : TokenId) (config : AMMConfig) : Option AMMConfig :=
  if config.depth ≤ config.spread then none else some config

/-- The per-tick price state an `AMM` instance holds after
`set_buy_prices`/`set_sell_prices` have run. -/
structure AMMPrices where
  p_i : ℚ
  p_u : ℚ
  p_l : ℚ
  buy_prices : List ℚ
  sell_prices : List ℚ

/-- `AMM.set_buy_prices`, the upper clip:
`round(min(p_i + depth, p_max) - min_tick / 10, count_decimal_places(min_tick))`. -/
def set_buy_prices_pu (cfg : AMMConfig) (p_i : ℚ) : ℚ :=
  roundDec (count_decimal_places cfg.min_tick)
    (min (p_i + cfg.depth) cfg.p_max - cfg.min_tick / 10)

/-- `AMM.set_buy_prices`, the lower clip:
`round(max(p_i - depth, p_min) + min_tick / 10, count_decimal_places(min_tick))`. -/
def set_buy_prices_pl (cfg : AMMConfig) (p_i : ℚ) : ℚ :=
  roundDec (count_decimal_places cfg.min_tick)
    (max (p_i - cfg.depth) cfg.p_min + cfg.min_tick / 10)

/-- The `while price >= self.p_l` loop of `AMM.set_buy_prices`, fuel-indexed.
Each pass appends `price` and steps to `round(price - delta, d)`. -/
def buyPricesLoop (d : ℕ) (delta p_l : ℚ) : ℕ → ℚ → List ℚ
  | 0, _ => []
  | fuel + 1, price =>
    if p_l ≤ price then price :: buyPricesLoop d delta p_l fuel (roundDec d (price - delta))
    else []

/-- `AMM.set_buy_prices`, the ladder itself.  `spread = none` stands for the
float `inf` that `synchronize` passes when competitor depth is short: then the
start price is `-inf` and the loop body never runs.  The fuel is a bound on the
iterations actually taken; it is exceeded only where the Python loop itself
would not terminate (step `delta` smaller than half a grid step). -/
def set_buy_prices_list (cfg : AMMConfig) (spread : Option ℚ) (p_i : ℚ) : List ℚ :=
  match spread with
  | none => []
  | some s =>
    let d := count_decimal_places cfg.min_tick
    let start := roundDec d (p_i - s)
    let p_l := set_buy_prices_pl cfg p_i
    buyPricesLoop d cfg.delta p_l ((⌈(start - p_l) * 10 ^ d * 2⌉).toNat + 1) start

/-- `AMM.set_sell_prices(best_ask)`: a single level at
`round(best_ask, count_decimal_places(min_tick))`. -/
def set_sell_prices (cfg : AMMConfig) (best_ask : ℚ) : List ℚ :=
  [roundDec (count_decimal_places cfg.min_tick) best_ask]

/-- The state produced by `update_spread`, `set_buy_prices p_i`,
`set_sell_prices best_ask` on one `AMM` instance. -/
def amm_prices (cfg : AMMConfig) (spread : Option ℚ) (p_i best_ask : ℚ) : AMMPrices :=
  { p_i := p_i
    p_u := set_buy_prices_pu cfg p_i
    p_l := set_buy_prices_pl cfg p_i
    buy_prices := set_buy_prices_list cfg spread p_i
    sell_prices := set_sell_prices cfg best_ask }

/-- `AMM.phi`: 0 on an empty buy ladder, else
`(1/(sqrt(p_i) - sqrt(p_l))) * (1/sqrt(buy_prices[0]) - 1/sqrt(p_i))`. -/
noncomputable def phi (a : AMMPrices) : ℝ :=
  match a.buy_prices with
  | [] => 0
  | b0 :: _ =>
    (1 / (Real.sqrt a.p_i - Real.sqrt a.p_l))
      * (1 / Real.sqrt b0 - 1 / Real.sqrt a.p_i)

/-- `AMM._sell_size(x, p_i, p_t, p_u)`. -/
noncomputable def sell_size_static (x p_i p_t p_u : ℝ) : ℝ :=
  let L := x / (1 / Real.sqrt p_i - 1 / Real.sqrt p_u)
  L / Real.sqrt p_u - L / Real.sqrt p_t + x

/-- `AMM._buy_size(y, p_i, p_t, p_l)`. -/
noncomputable def buy_size_static (y p_i p_t p_l : ℝ) : ℝ :=
  let L := y / (Real.sqrt p_i - Real.sqrt p_l)
  L * (1 / Real.sqrt p_t - 1 / Real.sqrt p_i)

/-- `AMM.diff(arr)`: `arr[i]` at `i = 0`, else `arr[i] - arr[i-1]`. -/
def diff {α : Type} [Zero α] [Sub α] (arr : List α) : List α :=
  (List.range arr.length).map
    (fun i => if i = 0 then arr.getD i 0 else arr.getD i 0 - arr.getD (i - 1) 0)

/-- `AMM.get_sell_orders(balance_of_token)`: `sizes = [balance]`, zip with the
(singleton) sell price list, keep levels with `size >= min_size`. -/
def get_sell_orders (token : TokenId) (cfg : AMMConfig) (a : AMMPrices)
    (balance_of_token : ℚ) : List Order :=
  match a.sell_prices with
  | [] => []
  | sp =>
    ((sp.zip [balance_of_token]).filter (fun ps => decide (cfg.min_size ≤ ps.2))).map
      (fun ps => ⟨Side.SELL, token, ps.1, (ps.2 : ℝ)⟩)

open Classical in
/-- `AMM.get_buy_orders(balance_of_usdc)`: cumulative curve sizes at each
ladder price, per-level increments via `diff`, rounded down to 2 decimals,
levels below `min_size` dropped. -/
noncomputable def get_buy_orders (token : TokenId) (cfg : AMMConfig) (a : AMMPrices)
    (balance_of_usdc : ℝ) : List Order :=
  let sizes_before_diff :=
    a.buy_prices.map (fun p_t : ℚ => buy_size_static balance_of_usdc a.p_i p_t a.p_l)
  let sizes := (diff sizes_before_diff).map (fun s => math_round_down s 2)
  ((a.buy_prices.zip sizes).filter
      (fun ps => decide ((cfg.min_size : ℝ) ≤ ps.2))).map
    (fun ps => ⟨Side.BUY, token, ps.1, ps.2⟩)

open Classical in
/-- `AMMManager.collateral_allocation`: `(0,0)` when both `phi`s are 0, else
the closed-form split clamped to `[0, collateral_balance]` and rounded down. -/
noncomputable def collateral_allocation (ammA ammB : AMMPrices)
    (collateral_balance : ℚ) (best_sell_order_size_a best_sell_order_size_b : ℝ) :
    ℝ × ℝ :=
  if phi ammA = 0 ∧ phi ammB = 0 then (0, 0)
  else
    let a0 : ℝ :=
      (best_sell_order_size_a - best_sell_order_size_b
          + (collateral_balance : ℝ) * phi ammB) / (phi ammA + phi ammB)
    let a1 := if a0 < 0 then 0
      else if (collateral_balance : ℝ) < a0 then (collateral_balance : ℝ) else a0
    (math_round_down a1 2, math_round_down ((collateral_balance : ℝ) - a1) 2)

/-- `sell_orders[0].size if len(sell_orders) > 0 else 0`. -/
def best_sell_order_size (orders : List Order) : ℝ :=
  match orders with
  | [] => 0
  | o :: _ => o.size

/-- The pair `(buy_orders_a, buy_orders_b)` computed by
`AMMManager.get_expected_orders` before the extreme-band suppression. -/
noncomputable def expected_buy_orders (cfg : AMMConfig) (tpA tpB : ℚ)
    (balA balB balC : ℚ) (sA sB : Option ℚ) : List Order × List Order :=
  let pa := amm_prices cfg sA tpA tpA
  let pb := amm_prices cfg sB tpB tpB
  let sell_orders_a := get_sell_orders TokenId.A cfg pa balA
  let sell_orders_b := get_sell_orders TokenId.B cfg pb balB
  let total_collateral_allocation := min balC cfg.max_collateral
  let ca := collateral_allocation pa pb total_collateral_allocation
    (best_sell_order_size sell_orders_a) (best_sell_order_size sell_orders_b)
  (get_buy_orders TokenId.A cfg pa ca.1, get_buy_orders TokenId.B cfg pb ca.2)

open Classical in
/-- `AMMManager.get_expected_orders(target_prices, balances, spread_A, spread_B)`.
Note both `set_sell_prices` calls receive the token's target price. -/
noncomputable def get_expected_orders (cfg : AMMConfig) (tpA tpB : ℚ)
    (balA balB balC : ℚ) (sA sB : Option ℚ) : List Order :=
  let pa := amm_prices cfg sA tpA tpA
  let pb := amm_prices cfg sB tpB tpB
  let sell_orders_a := get_sell_orders TokenId.A cfg pa balA
  let sell_orders_b := get_sell_orders TokenId.B cfg pb balB
  let bo := expected_buy_orders cfg tpA tpB balA balB balC sA sB
  let kept :=
    if (tpA < 1/10 ∨ 9/10 < tpA) ∧ (bo.1 = [] ∨ bo.2 = []) then ([], [])
    else (bo.1, bo.2)
  sell_orders_a ++ sell_orders_b ++ kept.1 ++ kept.2

/-! ### strategy.py -/

/-- The accumulation loop of
`StrategyManager.get_spread_where_order_value_exceeds_max_collateral`:
walk the levels summing `price*size`; at the first level where the running sum
strictly exceeds `max_collateral` return
`abs(round(midpoint - price, round_decimals))`; `none` stands for the
`float("inf")` returned when the cap is never exceeded. -/
def spread_loop (midpoint max_collateral : ℚ) (round_decimals : ℕ) :
    List BookLevel → ℚ → Option ℚ
  | [], _ => none
  | o :: rest, acc =>
    let acc' := acc + o.price * o.size
    if max_collateral < acc' then some |roundDec round_decimals (midpoint - o.price)|
    else spread_loop midpoint max_collateral round_decimals rest acc'

/-- `StrategyManager.get_spread_where_order_value_exceeds_max_collateral`. -/
def get_spread_where_order_value_exceeds_max_collateral
    (orders : List BookLevel) (midpoint max_collateral : ℚ)
    (round_decimals : ℕ) : Option ℚ :=
  spread_loop midpoint max_collateral round_decimals orders 0

/-- A value read out of the token order-book dict: the key may be absent
(indexing raises `KeyError`), hold `None`, or hold a list of levels. -/
inductive SideEntry
  | absent
  | noneVal
  | levels (l : List BookLevel)

/-- The competitor token order book returned by `price_feed.get_order_book`. -/
structure TokenBook where
  bids : SideEntry
  asks : SideEntry

/-- The order book manager snapshot before `get_order_book` validates it:
own open orders plus the three balances, any of which may be missing. -/
structure RawSnapshot where
  orders : List Order
  balance_collateral : Option ℚ
  balance_a : Option ℚ
  balance_b : Option ℚ

/-- A validated snapshot. -/
structure Snapshot where
  orders : List Order
  balance_collateral : ℚ
  balance_a : ℚ
  balance_b : ℚ

/-- `StrategyManager.get_order_book`: raises when the fetch failed, when a
balance is `None`, or when all balances sum to zero. -/
def strategy_get_order_book (fetched : Except Unit RawSnapshot) :
    Except Unit Snapshot :=
  match fetched with
  | .error _ => .error ()
  | .ok r =>
    match r.balance_collateral, r.balance_a, r.balance_b with
    | some c, some a, some b =>
      if c + a + b = 0 then .error () else .ok ⟨r.orders, c, a, b⟩
    | _, _, _ => .error ()

/-- Midpoint of the competitor book as `synchronize` computes it:
`(bids[0]['price'] + asks[0]['price']) / 2`. -/
def book_midpoint (bids asks : List BookLevel) : ℚ :=
  ((bids.headD ⟨0, 0⟩).price + (asks.headD ⟨0, 0⟩).price) / 2

/-- The best competitive ask: `asks[0]['price']`. -/
def book_best_ask (asks : List BookLevel) : ℚ :=
  (asks.headD ⟨0, 0⟩).price

/-- A Python exception escaping `synchronize`. -/
inductive PyErr
  | keyError
  | unboundLocalError
deriving DecidableEq, Repr

open Classical in
/-- Modelled from the spec: `AMMStrategy.get_orders` (the file
`strategies/amm_strategy.py` is imported by `strategy.py` but absent from
`src/`).  Per §4.3 of the spec it computes the expected orders and diffs them
against the live set by exact identity: live orders not in the desired set are
cancelled, desired orders not live are placed. -/
noncomputable def strategy_get_orders (cfg : AMMConfig) (snap : Snapshot)
    (tpA tpB : ℚ) (sA sB : Option ℚ) : List Order × List Order :=
  let expected := get_expected_orders cfg tpA tpB
    snap.balance_a snap.balance_b snap.balance_collateral sA sB
  (snap.orders.filter (fun o => decide (¬ o ∈ expected)),
   expected.filter (fun o => decide (¬ o ∈ snap.orders)))

open Classical in
/-- `StrategyManager.synchronize`.  Only the `get_order_book` call sits in a
`try`/`except`; afterwards `bid_spread_greater_than_max_collateral` and
`ask_spread_greater_than_max_collateral` are assigned only inside the branch
requiring a book with non-`None`, nonempty `bids` and `asks`, yet are read
unconditionally at `strategy.py:149-150`, and a missing `'bids'`/`'asks'` key
raises at `strategy.py:97-98`.  The result is the `(orders_to_cancel,
orders_to_place)` pair handed to the cancel/place calls, or the escaped
exception. -/
noncomputable def synchronize (cfg : AMMConfig) (fetched : Except Unit RawSnapshot)
    (token_market_order_book : Option TokenBook) :
    Except PyErr (List Order × List Order) :=
  match strategy_get_order_book fetched with
  | .error _ => .ok ([], [])
  | .ok snap =>
    let inner : Except PyErr (Option (Option ℚ × Option ℚ) × ℚ × ℚ) :=
      match token_market_order_book with
      | none => .ok (none, 0, 0)
      | some book =>
        match book.bids, book.asks with
        | SideEntry.absent, _ => .error PyErr.keyError
        | _, SideEntry.absent => .error PyErr.keyError
        | SideEntry.levels (b0 :: brest), SideEntry.levels (a0 :: arest) =>
          let bids := b0 :: brest
          let asks := a0 :: arest
          let midpoint := book_midpoint bids asks
          let bid_spread := get_spread_where_order_value_exceeds_max_collateral
            bids midpoint cfg.max_collateral 5
          let ask_spread := get_spread_where_order_value_exceeds_max_collateral
            asks midpoint cfg.max_collateral 5
          .ok (some (bid_spread, ask_spread), midpoint, 1 - midpoint)
        | _, _ => .ok (none, 0, 0)
    match inner with
    | .error e => .error e
    | .ok (none, _, _) => .error PyErr.unboundLocalError
    | .ok (some (sA, sB), tpA, tpB) =>
      .ok (strategy_get_orders cfg snap tpA tpB sA sB)

/-! ### clob_api.py -/

/-- An open-order dict as returned by the venue client. -/
structure OpenOrderDict where
  original_size : ℚ
  size_matched : ℚ
  price : ℚ
  side : String
  id : String
  asset_id : ℤ

/-- A keeper order as `ClobApi._get_order` shapes it. -/
structure KeeperOrder where
  size : ℚ
  price : ℚ
  side : String
  token_id : ℤ
  id : String
deriving DecidableEq, Repr

/-- `ClobApi._get_order(order_dict)`. -/
def clob_get_order (o : OpenOrderDict) : KeeperOrder :=
  ⟨o.original_size - o.size_matched, o.price, o.side, o.asset_id, o.id⟩

/-- `ClobApi.get_orders(condition_id)`: maps `_get_order` over the client
response; any exception from the client call is caught, logged, and the
function falls through to `return []`. -/
def clob_get_orders (resp : Except String (List OpenOrderDict)) : List KeeperOrder :=
  match resp with
  | .ok r => r.map clob_get_order
  | .error _ => []

/-! ### Claim theorems -/

/-- C10: if the underlying client call inside `ClobApi.get_orders` raises any
exception, `get_orders` returns the empty list, making a failed fetch
indistinguishable from an empty set of open orders. -/
theorem clob_get_orders_error_empty (e : String) :
    clob_get_orders (Except.error e) = [] ∧
    clob_get_orders (Except.error e) = clob_get_orders (Except.ok []) :=
  ⟨rfl, rfl⟩

theorem diff_length {α : Type} [Zero α] [Sub α] (arr : List α) :
    (diff arr).length = arr.length := by
  simp [diff]

theorem diff_get (arr : List ℚ) (i : ℕ) (h : i < (diff arr).length) :
    (diff arr)[i]
      = if i = 0 then arr.getD i 0 else arr.getD i 0 - arr.getD (i - 1) 0 := by
  simp [diff]

/-- C9: the prefix sums of `AMM.diff(arr)` reproduce `arr` exactly: for every
index `i < arr.length`, the sum of the first `i+1` increments equals `arr[i]`,
in exact rational arithmetic. -/
theorem diff_take_sum (arr : List ℚ) (i : ℕ) (h : i < arr.length) :
    ((diff arr).take (i + 1)).sum = arr.getD i 0 := by
  induction i with
  | zero =>
    have h0 : 0 < (diff arr).length := by rw [diff_length]; exact h
    rw [List.sum_take_succ _ 0 h0, diff_get]
    simp
  | succ n ih =>
    have hn : n < arr.length := Nat.lt_of_succ_lt h
    have h1 : n + 1 < (diff arr).length := by rw [diff_length]; exact h
    rw [List.sum_take_succ _ (n + 1) h1, ih hn, diff_get]
    rw [if_neg (Nat.succ_ne_zero n)]
    simp only [Nat.add_sub_cancel]
    ring

/-- C9 witness at `arr = [1, 3, 7]`, `i = 2`. -/
theorem diff_take_sum_witness :
    2 < ([1, 3, 7] : List ℚ).length ∧
    ((diff ([1, 3, 7] : List ℚ)).take 3).sum = ([1, 3, 7] : List ℚ).getD 2 0 :=
  ⟨by decide, diff_take_sum [1, 3, 7] 2 (by decide)⟩

/-- C6 counterexample: a configuration with `p_min > p_max` but
`spread < depth` is accepted by `AMM.__init__` — the claim says construction
must raise on `p_min >= p_max`. -/
theorem AMM_init_accepts_inverted_bounds :
    (⟨9/10, 1/10, 1/100, 1/100, 1/50, 5, 1/100, 1/10⟩ : AMMConfig).p_max
        ≤ (⟨9/10, 1/10, 1/100, 1/100, 1/50, 5, 1/100, 1/10⟩ : AMMConfig).p_min ∧
    (⟨9/10, 1/10, 1/100, 1/100, 1/50, 5, 1/100, 1/10⟩ : AMMConfig).spread
        < (⟨9/10, 1/10, 1/100, 1/100, 1/50, 5, 1/100, 1/10⟩ : AMMConfig).depth ∧
    (AMM_init TokenId.A ⟨9/10, 1/10, 1/100, 1/100, 1/50, 5, 1/100, 1/10⟩).isSome = true := by
  refine ⟨by norm_num, by norm_num, ?_⟩
  rw [AMM_init, if_neg (by norm_num)]
  rfl

/-- C6 (amended): `AMM.__init__` raises exactly when `spread >= depth`;
`p_min >= p_max` is not checked at construction. -/
theorem AMM_init_none_iff (t : TokenId) (cfg : AMMConfig) :
    AMM_init t cfg = none ↔ cfg.depth ≤ cfg.spread := by
  rw [AMM_init]
  split_ifs with h <;> simp [h]

/-- Cumulative notional value of a list of book levels, `sum(price*size)`. -/
def levels_value (orders : List BookLevel) : ℚ :=
  (orders.map (fun o => o.price * o.size)).sum

/-- The spread derivation as C8 states it: at the first level `k` whose
running notional strictly exceeds the cap, the spread is `|midpoint - p_k|`
rounded to `round_decimals`; `none` (infinity) if no prefix exceeds the cap. -/
def spec_spread (orders : List BookLevel) (midpoint max_collateral : ℚ)
    (round_decimals : ℕ) : Option ℚ :=
  match (List.range orders.length).find?
      (fun k => decide (max_collateral < levels_value (orders.take (k + 1)))) with
  | some k => some (roundDec round_decimals |midpoint - (orders.getD k ⟨0, 0⟩).price|)
  | none => none

theorem spread_loop_eq (mid mc : ℚ) (d : ℕ) :
    ∀ (orders : List BookLevel) (acc : ℚ),
    spread_loop mid mc d orders acc =
      match (List.range orders.length).find?
          (fun k => decide (mc < acc + levels_value (orders.take (k + 1)))) with
      | some k => some (roundDec d |mid - (orders.getD k ⟨0, 0⟩).price|)
      | none => none := by
  intro orders
  induction orders with
  | nil => intro acc; simp [spread_loop]
  | cons o rest ih =>
    intro acc
    rw [spread_loop]
    by_cases h : mc < acc + o.price * o.size
    · rw [if_pos h]
      have hfind : (List.range (o :: rest).length).find?
          (fun k => decide (mc < acc + levels_value ((o :: rest).take (k + 1)))) = some 0 := by
        rw [List.length_cons, List.range_succ_eq_map]
        apply List.find?_cons_of_pos
        simpa [levels_value] using h
      rw [hfind]
      simp [roundDec_abs]
    · rw [if_neg h, ih (acc + o.price * o.size)]
      rw [List.length_cons, List.range_succ_eq_map, List.find?_cons_of_neg, List.find?_map]
      · have hcomp : ((fun k => decide (mc < acc
                + levels_value ((o :: rest).take (k + 1)))) ∘ Nat.succ)
            = (fun k => decide (mc < acc + o.price * o.size
                + levels_value (rest.take (k + 1)))) := by
          funext k
          rw [Function.comp_apply, decide_eq_decide]
          have ht : (o :: rest).take (Nat.succ k + 1) = o :: rest.take (k + 1) := rfl
          rw [ht]
          simp only [levels_value, List.map_cons, List.sum_cons]
          constructor <;> intro hin <;> linarith
        rw [hcomp]
        cases hf : (List.range rest.length).find?
            (fun k => decide (mc < acc + o.price * o.size
              + levels_value (rest.take (k + 1)))) with
        | none => simp
        | some k => simp [List.getD_cons_succ]
      · simpa [levels_value] using h

/-- C8: the derived own-quoting spread equals `|midpoint - p_k|` rounded to
`round_decimals`, where `k` is the first level at which the running sum of
`price*size` strictly exceeds `max_collateral`, and is infinite (`none`) when
no prefix of the book exceeds the cap. -/
theorem get_spread_eq_spec (orders : List BookLevel)
    (midpoint max_collateral : ℚ) (round_decimals : ℕ) :
    get_spread_where_order_value_exceeds_max_collateral
        orders midpoint max_collateral round_decimals
      = spec_spread orders midpoint max_collateral round_decimals := by
  rw [get_spread_where_order_value_exceeds_max_collateral, spread_loop_eq, spec_spread]
  simp only [zero_add]

theorem mrd_pair_bounds {a c : ℝ} (ha0 : 0 ≤ a) (hac : a ≤ c) :
    0 ≤ math_round_down a 2 ∧ 0 ≤ math_round_down (c - a) 2 ∧
    math_round_down a 2 + math_round_down (c - a) 2 ≤ c := by
  refine ⟨math_round_down_nonneg 2 ha0, math_round_down_nonneg 2 (by linarith), ?_⟩
  have h1 := math_round_down_le a 2
  have h2 := math_round_down_le (c - a) 2
  linarith

/-- C3 (amended): for nonnegative input collateral the two allocations are
nonnegative and their sum is at most the input collateral; the sum can fall
short of it (both allocations are rounded down to 2 decimals, and the
allocation is `(0,0)` whenever both `phi`s vanish). -/
theorem collateral_allocation_bounds (ammA ammB : AMMPrices) (c : ℚ)
    (sa sb : ℝ) (hc : 0 ≤ c) :
    0 ≤ (collateral_allocation ammA ammB c sa sb).1 ∧
    0 ≤ (collateral_allocation ammA ammB c sa sb).2 ∧
    (collateral_allocation ammA ammB c sa sb).1
        + (collateral_allocation ammA ammB c sa sb).2 ≤ (c : ℝ) := by
  have hc' : (0 : ℝ) ≤ (c : ℝ) := by exact_mod_cast hc
  rw [collateral_allocation]
  split_ifs with h
  · refine ⟨le_refl 0, le_refl 0, by simpa using hc'⟩
  · dsimp only
    set x := (sa - sb + (c : ℝ) * phi ammB) / (phi ammA + phi ammB) with hx
    by_cases h1 : x < 0
    · rw [if_pos h1]
      exact mrd_pair_bounds (le_refl 0) hc'
    · rw [if_neg h1]
      by_cases h2 : (c : ℝ) < x
      · rw [if_pos h2]
        exact mrd_pair_bounds hc' (le_refl _)
      · rw [if_neg h2]
        exact mrd_pair_bounds (le_of_not_lt h1) (le_of_not_lt h2)

/-- C3 witness: the amended bounds at concrete inputs (both ladders empty,
collateral 1). -/
theorem collateral_allocation_bounds_witness :
    (0 : ℚ) ≤ 1 ∧
    (0 ≤ (collateral_allocation ⟨1/2, 97/100, 1/4, [], [1/2]⟩
        ⟨1/2, 97/100, 1/4, [], [1/2]⟩ 1 0 0).1 ∧
    0 ≤ (collateral_allocation ⟨1/2, 97/100, 1/4, [], [1/2]⟩
        ⟨1/2, 97/100, 1/4, [], [1/2]⟩ 1 0 0).2 ∧
    (collateral_allocation ⟨1/2, 97/100, 1/4, [], [1/2]⟩
        ⟨1/2, 97/100, 1/4, [], [1/2]⟩ 1 0 0).1
      + (collateral_allocation ⟨1/2, 97/100, 1/4, [], [1/2]⟩
        ⟨1/2, 97/100, 1/4, [], [1/2]⟩ 1 0 0).2 ≤ ((1 : ℚ) : ℝ)) :=
  ⟨by norm_num,
   collateral_allocation_bounds ⟨1/2, 97/100, 1/4, [], [1/2]⟩
     ⟨1/2, 97/100, 1/4, [], [1/2]⟩ 1 0 0 (by norm_num)⟩

/-- C3 counterexample: with both buy ladders empty (both `phi`s are 0) and
input collateral `min(1, 2) = 1`, the allocation is `(0, 0)` and the sum of
the allocations is not the input collateral. -/
theorem collateral_allocation_sum_counterexample :
    collateral_allocation ⟨1/2, 97/100, 1/4, [], [1/2]⟩
        ⟨1/2, 97/100, 1/4, [], [1/2]⟩ (min 1 2) 0 0 = (0, 0) ∧
    (0 : ℝ) + 0 ≠ ((min (1 : ℚ) 2 : ℚ) : ℝ) := by
  constructor
  · rw [collateral_allocation, if_pos]
    exact ⟨rfl, rfl⟩
  · norm_num

/-- C5 counterexample: at `y = 1`, `p_i = 1/4`, `p_t = 4/25`, `p_l = 9/100`
the code's buy size (which uses `L = y / (sqrt(p_i) - sqrt(p_l))`) differs
from the claim's formula `L = y / (1/sqrt(p_i) - 1/sqrt(p_l))`. -/
theorem buy_size_counterexample :
    buy_size_static 1 (1/4) (4/25) (9/100)
      ≠ 1 / (1 / Real.sqrt (1/4) - 1 / Real.sqrt (9/100))
          * (1 / Real.sqrt (4/25) - 1 / Real.sqrt (1/4)) := by
  have s1 : Real.sqrt (1/4) = 1/2 := by
    rw [show (1/4 : ℝ) = (1/2)^2 by norm_num, Real.sqrt_sq (by norm_num : (0:ℝ) ≤ 1/2)]
  have s2 : Real.sqrt (9/100) = 3/10 := by
    rw [show (9/100 : ℝ) = (3/10)^2 by norm_num, Real.sqrt_sq (by norm_num : (0:ℝ) ≤ 3/10)]
  have s3 : Real.sqrt (4/25) = 2/5 := by
    rw [show (4/25 : ℝ) = (2/5)^2 by norm_num, Real.sqrt_sq (by norm_num : (0:ℝ) ≤ 2/5)]
  rw [buy_size_static]
  rw [s1, s2, s3]
  norm_num

/-- C5 (amended): the buy size is `L * (1/sqrt(p_t) - 1/sqrt(p_i))` with
`L = y / (sqrt(p_i) - sqrt(p_l))` (difference of square roots, not of their
reciprocals), and the sell size is `x + L' * (1/sqrt(p_u) - 1/sqrt(p_t))` with
`L' = x / (1/sqrt(p_i) - 1/sqrt(p_u))`; stated denominator-free. -/
theorem size_formulas (y x p_i p_t p_l p_u : ℝ)
    (hpi : 0 < p_i) (hpt : 0 < p_t)
    (hl : Real.sqrt p_i ≠ Real.sqrt p_l)
    (hu : 1 / Real.sqrt p_i - 1 / Real.sqrt p_u ≠ 0) :
    buy_size_static y p_i p_t p_l
        * ((Real.sqrt p_i - Real.sqrt p_l) * (Real.sqrt p_t * Real.sqrt p_i))
      = y * (Real.sqrt p_i - Real.sqrt p_t) ∧
    (sell_size_static x p_i p_t p_u - x)
        * (1 / Real.sqrt p_i - 1 / Real.sqrt p_u)
      = x * (1 / Real.sqrt p_u - 1 / Real.sqrt p_t) := by
  have hsi : Real.sqrt p_i ≠ 0 := ne_of_gt (Real.sqrt_pos.mpr hpi)
  have hst : Real.sqrt p_t ≠ 0 := ne_of_gt (Real.sqrt_pos.mpr hpt)
  have hd : Real.sqrt p_i - Real.sqrt p_l ≠ 0 := sub_ne_zero.mpr hl
  constructor
  · rw [buy_size_static]
    have step1 : y / (Real.sqrt p_i - Real.sqrt p_l)
          * (1 / Real.sqrt p_t - 1 / Real.sqrt p_i)
          * ((Real.sqrt p_i - Real.sqrt p_l) * (Real.sqrt p_t * Real.sqrt p_i))
        = (y / (Real.sqrt p_i - Real.sqrt p_l) * (Real.sqrt p_i - Real.sqrt p_l))
          * ((1 / Real.sqrt p_t - 1 / Real.sqrt p_i)
            * (Real.sqrt p_t * Real.sqrt p_i)) := by ring
    rw [step1, div_mul_cancel₀ y hd]
    have step2 : (1 / Real.sqrt p_t - 1 / Real.sqrt p_i)
          * (Real.sqrt p_t * Real.sqrt p_i)
        = Real.sqrt p_i - Real.sqrt p_t := by
      field_simp
    rw [step2]
  · rw [sell_size_static]
    have step1 : x / (1 / Real.sqrt p_i - 1 / Real.sqrt p_u) / Real.sqrt p_u
          - x / (1 / Real.sqrt p_i - 1 / Real.sqrt p_u) / Real.sqrt p_t + x - x
        = x / (1 / Real.sqrt p_i - 1 / Real.sqrt p_u)
          * (1 / Real.sqrt p_u - 1 / Real.sqrt p_t) := by ring
    rw [step1]
    have step2 : x / (1 / Real.sqrt p_i - 1 / Real.sqrt p_u)
          * (1 / Real.sqrt p_u - 1 / Real.sqrt p_t)
          * (1 / Real.sqrt p_i - 1 / Real.sqrt p_u)
        = (x / (1 / Real.sqrt p_i - 1 / Real.sqrt p_u)
            * (1 / Real.sqrt p_i - 1 / Real.sqrt p_u))
          * (1 / Real.sqrt p_u - 1 / Real.sqrt p_t) := by ring
    rw [step2, div_mul_cancel₀ x hu]

/-- C5 witness: the amended size identities at `y = x = 1`, `p_i = 1/4`,
`p_t = 4/25`, `p_l = 9/100`, `p_u = 25/36`. -/
theorem size_formulas_witness :
    (0 : ℝ) < 1/4 ∧ (0 : ℝ) < 4/25 ∧
    Real.sqrt (1/4) ≠ Real.sqrt (9/100) ∧
    1 / Real.sqrt (1/4) - 1 / Real.sqrt (25/36) ≠ 0 ∧
    (buy_size_static 1 (1/4) (4/25) (9/100)
        * ((Real.sqrt (1/4) - Real.sqrt (9/100))
          * (Real.sqrt (4/25) * Real.sqrt (1/4)))
      = 1 * (Real.sqrt (1/4) - Real.sqrt (4/25)) ∧
    (sell_size_static 1 (1/4) (4/25) (25/36) - 1)
        * (1 / Real.sqrt (1/4) - 1 / Real.sqrt (25/36))
      = 1 * (1 / Real.sqrt (25/36) - 1 / Real.sqrt (4/25))) := by
  have s1 : Real.sqrt (1/4) = 1/2 := by
    rw [show (1/4 : ℝ) = (1/2)^2 by norm_num, Real.sqrt_sq (by norm_num : (0:ℝ) ≤ 1/2)]
  have s2 : Real.sqrt (9/100) = 3/10 := by
    rw [show (9/100 : ℝ) = (3/10)^2 by norm_num, Real.sqrt_sq (by norm_num : (0:ℝ) ≤ 3/10)]
  have s4 : Real.sqrt (25/36) = 5/6 := by
    rw [show (25/36 : ℝ) = (5/6)^2 by norm_num, Real.sqrt_sq (by norm_num : (0:ℝ) ≤ 5/6)]
  refine ⟨by norm_num, by norm_num, by rw [s1, s2]; norm_num, by rw [s1, s4]; norm_num, ?_⟩
  exact size_formulas 1 1 (1/4) (4/25) (9/100) (25/36) (by norm_num) (by norm_num)
    (by rw [s1, s2]; norm_num) (by rw [s1, s4]; norm_num)

theorem aligned_mul {d : ℕ} {x : ℚ} {k : ℤ} (h : x = (k : ℚ) / 10 ^ d) :
    x * 10 ^ d = (k : ℚ) := by
  rw [h, div_mul_cancel₀ _ (ne_of_gt (pow_ten_pos d))]

theorem half_grid_mul (d : ℕ) : (1 / (2 * 10 ^ d) : ℚ) * 10 ^ d = 1/2 := by
  have hE : (10 : ℚ) ^ d ≠ 0 := ne_of_gt (pow_ten_pos d)
  field_simp
  ring

theorem buyPricesLoop_mem {d : ℕ} {delta p_l p_max : ℚ} (hdelta : 0 ≤ delta) :
    ∀ (fuel : ℕ) (price : ℚ), Aligned d price → price ≤ p_max →
    ∀ p ∈ buyPricesLoop d delta p_l fuel price, p_l ≤ p ∧ p ≤ p_max := by
  intro fuel
  induction fuel with
  | zero => intro price _ _ p hp; simp [buyPricesLoop] at hp
  | succ n ih =>
    intro price hal hle p hp
    rw [buyPricesLoop] at hp
    by_cases hg : p_l ≤ price
    · rw [if_pos hg] at hp
      rcases List.mem_cons.mp hp with rfl | hmem
      · exact ⟨hg, hle⟩
      · obtain ⟨k, hk⟩ := hal
        have hkp : price * 10 ^ d = (k : ℚ) := aligned_mul hk
        have hlt : (price - delta) * 10 ^ d < (k : ℚ) + 1/2 := by
          have hme : (price - delta) * 10 ^ d ≤ price * 10 ^ d :=
            mul_le_mul_of_nonneg_right (by linarith) (pow_ten_pos d).le
          rw [hkp] at hme
          linarith
        have h1 : roundDec d (price - delta) ≤ (k : ℚ) / 10 ^ d := roundDec_le hlt
        rw [← hk] at h1
        exact ih (roundDec d (price - delta)) (roundDec_aligned d _)
          (le_trans h1 hle) p hmem
    · rw [if_neg hg] at hp
      simp at hp

/-- C4 (amended): for a configuration with `p_min < p_max`, `0 ≤ spread < depth`,
`0 ≤ delta`, positive `min_tick` at most half a grid step, grid-aligned
`p_min`, `p_max`, and a grid-aligned reference price `p_i` inside
`[p_min, p_max]`, the clipped bounds `p_u`, `p_l` and every element of the buy
ladder lie within `[p_min, p_max]`.  (The claim as stated fails for reference
prices outside `[p_min, p_max]`.) -/
theorem set_buy_prices_in_bounds (cfg : AMMConfig) (spread p_i : ℚ)
    (h1 : cfg.p_min < cfg.p_max)
    (h2 : 0 ≤ spread)
    (h3 : spread < cfg.depth)
    (h4 : 0 ≤ cfg.delta)
    (h5 : 0 < cfg.min_tick)
    (h6 : cfg.min_tick / 10 ≤ 1 / (2 * 10 ^ count_decimal_places cfg.min_tick))
    (h7 : Aligned (count_decimal_places cfg.min_tick) cfg.p_min)
    (h8 : Aligned (count_decimal_places cfg.min_tick) cfg.p_max)
    (h9 : Aligned (count_decimal_places cfg.min_tick) p_i)
    (h10 : cfg.p_min ≤ p_i) (h11 : p_i ≤ cfg.p_max) :
    (cfg.p_min ≤ set_buy_prices_pu cfg p_i ∧ set_buy_prices_pu cfg p_i ≤ cfg.p_max) ∧
    (cfg.p_min ≤ set_buy_prices_pl cfg p_i ∧ set_buy_prices_pl cfg p_i ≤ cfg.p_max) ∧
    ∀ p ∈ set_buy_prices_list cfg (some spread) p_i,
      cfg.p_min ≤ p ∧ p ≤ cfg.p_max := by
  set d := count_decimal_places cfg.min_tick with hd
  obtain ⟨km, hkm⟩ := h7
  obtain ⟨kM, hkM⟩ := h8
  obtain ⟨ki, hki⟩ := h9
  have h10pos : (0 : ℚ) < 10 ^ d := pow_ten_pos d
  have hdepth : 0 < cfg.depth := lt_of_le_of_lt h2 h3
  have hmmul : cfg.p_min * 10 ^ d = (km : ℚ) := aligned_mul hkm
  have hMmul : cfg.p_max * 10 ^ d = (kM : ℚ) := aligned_mul hkM
  have himul : p_i * 10 ^ d = (ki : ℚ) := aligned_mul hki
  have hhalf := half_grid_mul d
  have hgpos : (0 : ℚ) < 1 / (2 * 10 ^ d) :=
    div_pos one_pos (mul_pos (by norm_num) h10pos)
  -- p_u bounds
  have hpuU : set_buy_prices_pu cfg p_i ≤ cfg.p_max := by
    rw [set_buy_prices_pu, ← hd]
    have harg : min (p_i + cfg.depth) cfg.p_max - cfg.min_tick / 10 < cfg.p_max := by
      have := min_le_right (p_i + cfg.depth) cfg.p_max
      have ht : 0 < cfg.min_tick / 10 := by linarith
      linarith
    have hlt : (min (p_i + cfg.depth) cfg.p_max - cfg.min_tick / 10) * 10 ^ d
        < (kM : ℚ) + 1/2 := by
      have h0 := mul_lt_mul_of_pos_right harg h10pos
      rw [hMmul] at h0
      linarith
    have hres := roundDec_le hlt
    rw [← hkM] at hres
    exact hres
  have hpuL : cfg.p_min ≤ set_buy_prices_pu cfg p_i := by
    rw [set_buy_prices_pu, ← hd]
    have hargl : cfg.p_min - 1 / (2 * 10 ^ d)
        < min (p_i + cfg.depth) cfg.p_max - cfg.min_tick / 10 := by
      have hmin : cfg.p_min < min (p_i + cfg.depth) cfg.p_max :=
        lt_min (by linarith) h1
      linarith
    have hlt : (km : ℚ) - 1/2
        < (min (p_i + cfg.depth) cfg.p_max - cfg.min_tick / 10) * 10 ^ d := by
      have h0 := mul_lt_mul_of_pos_right hargl h10pos
      rw [sub_mul, hmmul, hhalf] at h0
      linarith
    have hres := le_roundDec hlt
    rw [← hkm] at hres
    exact hres
  -- p_l bounds
  have hplL : cfg.p_min ≤ set_buy_prices_pl cfg p_i := by
    rw [set_buy_prices_pl, ← hd]
    have hargl : cfg.p_min - 1 / (2 * 10 ^ d)
        < max (p_i - cfg.depth) cfg.p_min + cfg.min_tick / 10 := by
      have := le_max_right (p_i - cfg.depth) cfg.p_min
      have ht : 0 < cfg.min_tick / 10 := by linarith
      linarith
    have hlt : (km : ℚ) - 1/2
        < (max (p_i - cfg.depth) cfg.p_min + cfg.min_tick / 10) * 10 ^ d := by
      have h0 := mul_lt_mul_of_pos_right hargl h10pos
      rw [sub_mul, hmmul, hhalf] at h0
      linarith
    have hres := le_roundDec hlt
    rw [← hkm] at hres
    exact hres
  have hplU : set_buy_prices_pl cfg p_i ≤ cfg.p_max := by
    rw [set_buy_prices_pl, ← hd]
    have harg : max (p_i - cfg.depth) cfg.p_min + cfg.min_tick / 10
        < cfg.p_max + 1 / (2 * 10 ^ d) := by
      have hmax : max (p_i - cfg.depth) cfg.p_min < cfg.p_max :=
        max_lt (by linarith) h1
      linarith
    have hlt : (max (p_i - cfg.depth) cfg.p_min + cfg.min_tick / 10) * 10 ^ d
        < (kM : ℚ) + 1/2 := by
      have h0 := mul_lt_mul_of_pos_right harg h10pos
      have hR : (cfg.p_max + 1 / (2 * 10 ^ d)) * 10 ^ d = (kM : ℚ) + 1/2 := by
        rw [add_mul, hMmul, hhalf]
      rw [hR] at h0
      exact h0
    have hres := roundDec_le hlt
    rw [← hkM] at hres
    exact hres
  refine ⟨⟨hpuL, hpuU⟩, ⟨hplL, hplU⟩, ?_⟩
  -- the ladder
  intro p hp
  rw [set_buy_prices_list] at hp
  rw [← hd] at hp
  have hstart : roundDec d (p_i - spread) ≤ cfg.p_max := by
    have hlt : (p_i - spread) * 10 ^ d < (kM : ℚ) + 1/2 := by
      have hme : (p_i - spread) * 10 ^ d ≤ p_i * 10 ^ d :=
        mul_le_mul_of_nonneg_right (by linarith) h10pos.le
      rw [himul] at hme
      have hik : (ki : ℚ) ≤ (kM : ℚ) := by
        have h0 := mul_le_mul_of_nonneg_right h11 h10pos.le
        rw [himul, hMmul] at h0
        exact h0
      linarith
    have hres := roundDec_le hlt
    rw [← hkM] at hres
    exact hres
  have hmem := buyPricesLoop_mem h4 _ (roundDec d (p_i - spread))
    (roundDec_aligned d _) hstart p hp
  exact ⟨le_trans hplL hmem.1, hmem.2⟩

theorem cdp100 : count_decimal_places (1/100 : ℚ) = 2 := by
  rw [count_decimal_places,
    show List.range 20 = [0,1,2,3,4,5,6,7,8,9,10,11,12,13,14,15,16,17,18,19] from rfl]
  norm_num [List.find?]
  rfl

/-- The concrete valid configuration used in concrete instantiations:
`p_min = 0.05`, `p_max = 0.95`, `spread = 0.01`, `delta = 0.01`,
`depth = 0.02`, `max_collateral = 5`, `min_tick = 0.01`, `min_size = 0.1`. -/
def cfgw : AMMConfig := ⟨1/20, 19/20, 1/100, 1/100, 1/50, 5, 1/100, 1/10⟩

/-- C4 counterexample: with the valid configuration `cfgw` (`p_min = 0.05`,
`p_max = 0.95`, `spread = 0.01 < depth = 0.02`, `min_tick = 0.01`) and
reference price `p_i = 0.99`, the produced lower bound `p_l = 0.97` lies
strictly above `p_max`, so not every produced price is within
`[p_min, p_max]`. -/
theorem set_buy_prices_escapes_bounds :
    cfgw.p_min < cfgw.p_max ∧ cfgw.spread < cfgw.depth ∧
    cfgw.p_max < set_buy_prices_pl cfgw (99/100) := by
  refine ⟨by norm_num [cfgw], by norm_num [cfgw], ?_⟩
  have hv : set_buy_prices_pl cfgw (99/100) = 97/100 := by
    rw [set_buy_prices_pl]
    norm_num [cfgw, cdp100]
    rw [roundDec, rhe]
    norm_num [Int.fract]
  rw [hv]
  norm_num [cfgw]

/-- C4 witness: the amended bounds at `cfgw` with reference price `p_i = 0.5`
and spread `0.01`. -/
theorem set_buy_prices_in_bounds_witness :
    (cfgw.p_min < cfgw.p_max) ∧
    ((0 : ℚ) ≤ 1/100) ∧
    ((1/100 : ℚ) < cfgw.depth) ∧
    ((0 : ℚ) ≤ cfgw.delta) ∧
    ((0 : ℚ) < cfgw.min_tick) ∧
    (cfgw.min_tick / 10 ≤ 1 / (2 * 10 ^ count_decimal_places cfgw.min_tick)) ∧
    Aligned (count_decimal_places cfgw.min_tick) cfgw.p_min ∧
    Aligned (count_decimal_places cfgw.min_tick) cfgw.p_max ∧
    Aligned (count_decimal_places cfgw.min_tick) (1/2 : ℚ) ∧
    (cfgw.p_min ≤ 1/2) ∧ ((1/2 : ℚ) ≤ cfgw.p_max) ∧
    ((cfgw.p_min ≤ set_buy_prices_pu cfgw (1/2) ∧ set_buy_prices_pu cfgw (1/2) ≤ cfgw.p_max) ∧
     (cfgw.p_min ≤ set_buy_prices_pl cfgw (1/2) ∧ set_buy_prices_pl cfgw (1/2) ≤ cfgw.p_max) ∧
     ∀ p ∈ set_buy_prices_list cfgw (some (1/100)) (1/2),
       cfgw.p_min ≤ p ∧ p ≤ cfgw.p_max) :=
  ⟨by norm_num [cfgw], by norm_num, by norm_num [cfgw], by norm_num [cfgw],
   by norm_num [cfgw], by norm_num [cfgw, cdp100],
   ⟨5, by norm_num [cfgw, cdp100]⟩, ⟨95, by norm_num [cfgw, cdp100]⟩,
   ⟨50, by norm_num [cfgw, cdp100]⟩,
   by norm_num [cfgw], by norm_num [cfgw],
   set_buy_prices_in_bounds cfgw (1/100) (1/2)
     (by norm_num [cfgw]) (by norm_num) (by norm_num [cfgw]) (by norm_num [cfgw])
     (by norm_num [cfgw]) (by norm_num [cfgw, cdp100]) ⟨5, by norm_num [cfgw, cdp100]⟩
     ⟨95, by norm_num [cfgw, cdp100]⟩ ⟨50, by norm_num [cfgw, cdp100]⟩
     (by norm_num [cfgw]) (by norm_num [cfgw])⟩

/-! ### C2: the sell side of the desired order set -/

theorem get_sell_orders_eq (t : TokenId) (cfg : AMMConfig) (a : AMMPrices)
    (bal : ℚ) (p : ℚ) (h : a.sell_prices = [p]) :
    get_sell_orders t cfg a bal
      = if cfg.min_size ≤ bal then [⟨Side.SELL, t, p, (bal : ℝ)⟩] else [] := by
  unfold get_sell_orders
  rw [h]
  by_cases hm : cfg.min_size ≤ bal
  · rw [if_pos hm]
    simp [List.filter, hm]
  · rw [if_neg hm]
    simp [List.filter, hm]

theorem get_sell_orders_side (t : TokenId) (cfg : AMMConfig) (a : AMMPrices)
    (bal : ℚ) : ∀ o ∈ get_sell_orders t cfg a bal, o.side = Side.SELL := by
  intro o ho
  unfold get_sell_orders at ho
  rcases hs : a.sell_prices with _ | ⟨q, qs⟩
  · rw [hs] at ho
    simp at ho
  · rw [hs] at ho
    simp only [List.mem_map, List.mem_filter] at ho
    obtain ⟨ps, _, rfl⟩ := ho
    rfl

theorem get_buy_orders_side (t : TokenId) (cfg : AMMConfig) (a : AMMPrices)
    (y : ℝ) : ∀ o ∈ get_buy_orders t cfg a y, o.side = Side.BUY := by
  intro o ho
  unfold get_buy_orders at ho
  simp only [List.mem_map, List.mem_filter] at ho
  obtain ⟨ps, _, rfl⟩ := ho
  rfl

theorem get_buy_orders_nil (t : TokenId) (cfg : AMMConfig) (a : AMMPrices)
    (y : ℝ) (h : a.buy_prices = []) : get_buy_orders t cfg a y = [] := by
  unfold get_buy_orders
  rw [h]
  simp [diff]

theorem expected_buy_orders_sideA (cfg : AMMConfig) (tpA tpB balA balB balC : ℚ)
    (sA sB : Option ℚ) :
    ∀ o ∈ (expected_buy_orders cfg tpA tpB balA balB balC sA sB).1,
      o.side = Side.BUY := by
  rw [expected_buy_orders]
  exact get_buy_orders_side _ _ _ _

theorem expected_buy_orders_sideB (cfg : AMMConfig) (tpA tpB balA balB balC : ℚ)
    (sA sB : Option ℚ) :
    ∀ o ∈ (expected_buy_orders cfg tpA tpB balA balB balC sA sB).2,
      o.side = Side.BUY := by
  rw [expected_buy_orders]
  exact get_buy_orders_side _ _ _ _

theorem filter_sell_get_expected (cfg : AMMConfig) (tpA tpB balA balB balC : ℚ)
    (sA sB : Option ℚ) :
    (get_expected_orders cfg tpA tpB balA balB balC sA sB).filter
        (fun o => decide (o.side = Side.SELL))
      = get_sell_orders TokenId.A cfg (amm_prices cfg sA tpA tpA) balA
        ++ get_sell_orders TokenId.B cfg (amm_prices cfg sB tpB tpB) balB := by
  rw [get_expected_orders]
  simp only [List.filter_append]
  have hA : (get_sell_orders TokenId.A cfg (amm_prices cfg sA tpA tpA) balA).filter
      (fun o => decide (o.side = Side.SELL))
      = get_sell_orders TokenId.A cfg (amm_prices cfg sA tpA tpA) balA :=
    List.filter_eq_self.mpr (fun o ho => by
      simp [get_sell_orders_side _ _ _ _ o ho])
  have hB : (get_sell_orders TokenId.B cfg (amm_prices cfg sB tpB tpB) balB).filter
      (fun o => decide (o.side = Side.SELL))
      = get_sell_orders TokenId.B cfg (amm_prices cfg sB tpB tpB) balB :=
    List.filter_eq_self.mpr (fun o ho => by
      simp [get_sell_orders_side _ _ _ _ o ho])
  have hbuy : ∀ (l : List Order), (∀ o ∈ l, o.side = Side.BUY) →
      l.filter (fun o => decide (o.side = Side.SELL)) = [] := fun l hl =>
    List.filter_eq_nil_iff.mpr (fun o ho => by simp [hl o ho])
  rw [hA, hB]
  by_cases hc : (tpA < 1/10 ∨ 9/10 < tpA)
      ∧ ((expected_buy_orders cfg tpA tpB balA balB balC sA sB).1 = []
        ∨ (expected_buy_orders cfg tpA tpB balA balB balC sA sB).2 = [])
  · rw [if_pos hc]
    simp
  · rw [if_neg hc]
    rw [hbuy _ (expected_buy_orders_sideA cfg tpA tpB balA balB balC sA sB),
      hbuy _ (expected_buy_orders_sideB cfg tpA tpB balA balB balC sA sB)]
    simp

/-- C2 (amended): on every tick, each token's sell side of the desired order
set is exactly one level, priced at the token's own target (reference) price
rounded to the tick grid — not at the competitor book's best ask — and sized
to the agent's entire balance of that token, dropped when below `min_size`. -/
theorem expected_sell_orders_shape (cfg : AMMConfig) (tpA tpB balA balB balC : ℚ)
    (sA sB : Option ℚ) :
    (get_expected_orders cfg tpA tpB balA balB balC sA sB).filter
        (fun o => decide (o.side = Side.SELL))
      = (if cfg.min_size ≤ balA then
          [⟨Side.SELL, TokenId.A, roundDec (count_decimal_places cfg.min_tick) tpA,
            (balA : ℝ)⟩] else [])
        ++ (if cfg.min_size ≤ balB then
          [⟨Side.SELL, TokenId.B, roundDec (count_decimal_places cfg.min_tick) tpB,
            (balB : ℝ)⟩] else []) := by
  rw [filter_sell_get_expected,
    get_sell_orders_eq TokenId.A cfg (amm_prices cfg sA tpA tpA) balA
      (roundDec (count_decimal_places cfg.min_tick) tpA) rfl,
    get_sell_orders_eq TokenId.B cfg (amm_prices cfg sB tpB tpB) balB
      (roundDec (count_decimal_places cfg.min_tick) tpB) rfl]

/-- C2 counterexample: with the competitor book `bids = [(0.4, 100)]`,
`asks = [(0.6, 100)]`, the midpoint (and hence Token A's target price) is 0.5
while the best ask is 0.6; the produced desired order set holds exactly one
sell order, for Token A at price 0.5 sized to its whole balance 10 — not at
the rounded best ask 0.6. -/
theorem sell_price_not_best_ask :
    book_midpoint [⟨2/5, 100⟩] [⟨3/5, 100⟩] = 1/2 ∧
    roundDec (count_decimal_places cfgw.min_tick) (book_best_ask [⟨3/5, 100⟩]) = 3/5 ∧
    (get_expected_orders cfgw (book_midpoint [⟨2/5, 100⟩] [⟨3/5, 100⟩])
        (1 - book_midpoint [⟨2/5, 100⟩] [⟨3/5, 100⟩]) 10 0 5
        (some (1/10)) (some (1/10))).filter (fun o => decide (o.side = Side.SELL))
      = [⟨Side.SELL, TokenId.A, 1/2, (10 : ℝ)⟩] ∧
    (1/2 : ℚ) ≠ 3/5 := by
  have hmid : book_midpoint [(⟨2/5, 100⟩ : BookLevel)] [⟨3/5, 100⟩] = 1/2 := by
    rw [book_midpoint]
    norm_num
  have hround : roundDec (count_decimal_places cfgw.min_tick) (1/2 : ℚ) = 1/2 := by
    rw [show cfgw.min_tick = 1/100 from rfl, cdp100, roundDec, rhe]
    norm_num [Int.fract]
  refine ⟨hmid, ?_, ?_, by norm_num⟩
  · rw [book_best_ask]
    rw [show ([(⟨3/5, 100⟩ : BookLevel)].headD ⟨0, 0⟩).price = 3/5 from rfl]
    rw [show cfgw.min_tick = 1/100 from rfl, cdp100, roundDec, rhe]
    norm_num [Int.fract]
  · rw [hmid]
    rw [filter_sell_get_expected,
      get_sell_orders_eq TokenId.A cfgw (amm_prices cfgw (some (1/10)) (1/2) (1/2)) 10
        (roundDec (count_decimal_places cfgw.min_tick) (1/2)) rfl,
      get_sell_orders_eq TokenId.B cfgw
        (amm_prices cfgw (some (1/10)) (1 - 1/2) (1 - 1/2)) 0
        (roundDec (count_decimal_places cfgw.min_tick) (1 - 1/2)) rfl]
    rw [if_pos (by norm_num [cfgw] : cfgw.min_size ≤ (10 : ℚ)),
      if_neg (by norm_num [cfgw] : ¬ cfgw.min_size ≤ (0 : ℚ))]
    rw [hround]
    simp

/-! ### C7: extreme-band suppression of buy orders -/

/-- C7 (amended): the suppression bands are half-open: whenever Token A's
target price satisfies `tpA < 0.1` or `tpA > 0.9` (strict, so the boundary
prices 0.1 and 0.9 are outside the bands) and at least one token's computed
buy-order list is empty, the final desired order set contains no buy orders;
sell orders are unaffected. -/
theorem extreme_band_suppresses_buys (cfg : AMMConfig) (tpA tpB balA balB balC : ℚ)
    (sA sB : Option ℚ)
    (h1 : tpA < 1/10 ∨ 9/10 < tpA)
    (h2 : (expected_buy_orders cfg tpA tpB balA balB balC sA sB).1 = []
        ∨ (expected_buy_orders cfg tpA tpB balA balB balC sA sB).2 = []) :
    (get_expected_orders cfg tpA tpB balA balB balC sA sB).filter
        (fun o => decide (o.side = Side.BUY)) = [] := by
  rw [get_expected_orders]
  rw [if_pos ⟨h1, h2⟩]
  simp only [List.filter_append]
  have hsell : ∀ (t : TokenId) (a : AMMPrices) (bal : ℚ),
      (get_sell_orders t cfg a bal).filter (fun o => decide (o.side = Side.BUY)) = [] :=
    fun t a bal => List.filter_eq_nil_iff.mpr (fun o ho => by
      simp [get_sell_orders_side t cfg a bal o ho])
  rw [hsell, hsell]
  simp

/-- C7 witness: at `tpA = 0.05` with both buy ladders empty (spreads of 10
push the ladder start far below `p_l`), the hypotheses hold and all buy
orders are suppressed. -/
theorem extreme_band_suppresses_buys_witness :
    ((1/20 : ℚ) < 1/10 ∨ (9/10 : ℚ) < 1/20) ∧
    ((expected_buy_orders cfgw (1/20) (19/20) 0 0 5 (some 10) (some 10)).1 = []
      ∨ (expected_buy_orders cfgw (1/20) (19/20) 0 0 5 (some 10) (some 10)).2 = []) ∧
    (get_expected_orders cfgw (1/20) (19/20) 0 0 5 (some 10) (some 10)).filter
        (fun o => decide (o.side = Side.BUY)) = [] := by
  have hlist : set_buy_prices_list cfgw (some 10) (1/20) = [] := by
    rw [set_buy_prices_list]
    have hstart : roundDec (count_decimal_places cfgw.min_tick) (1/20 - 10) = -199/20 := by
      rw [show cfgw.min_tick = 1/100 from rfl, cdp100, roundDec, rhe]
      norm_num [Int.fract]
    have hpl : set_buy_prices_pl cfgw (1/20) = 1/20 := by
      rw [set_buy_prices_pl]
      rw [show cfgw.min_tick = 1/100 from rfl, cdp100]
      rw [show max ((1:ℚ)/20 - cfgw.depth) cfgw.p_min + (1/100 : ℚ) / 10
          = 51/1000 from by norm_num [cfgw]]
      rw [roundDec, rhe]
      norm_num [Int.fract]
    rw [hstart, hpl]
    rw [buyPricesLoop]
    rw [if_neg (by norm_num)]
  have hbuyA : (expected_buy_orders cfgw (1/20) (19/20) 0 0 5 (some 10) (some 10)).1
      = [] := by
    rw [expected_buy_orders]
    exact get_buy_orders_nil _ _ _ _ hlist
  exact ⟨Or.inl (by norm_num), Or.inl hbuyA,
    extreme_band_suppresses_buys cfgw (1/20) (19/20) 0 0 5 (some 10) (some 10)
      (Or.inl (by norm_num)) (Or.inl hbuyA)⟩

theorem phi_nil {a : AMMPrices} (h : a.buy_prices = []) : phi a = 0 := by
  unfold phi
  rw [h]

theorem buy_size_static_zero (p_i p_t p_l : ℝ) : buy_size_static 0 p_i p_t p_l = 0 := by
  unfold buy_size_static
  simp

theorem diff_pair {α : Type} [Zero α] [Sub α] (a b : α) : diff [a, b] = [a, b - a] := by
  rw [diff]
  rw [show ([a, b] : List α).length = 1 + 1 from rfl]
  rw [List.range_succ, List.range_succ, List.range_zero]
  simp

/-- The configuration of the C7 counterexample: like `cfgw` but with
`min_size = 0` (the spec only requires `min_size ≥ 0`). -/
def cfg7 : AMMConfig := ⟨1/20, 19/20, 1/100, 1/100, 1/50, 5, 1/100, 0⟩

/-- C7 counterexample: at the boundary price `tpA = 0.1` (inside the claim's
closed band `[0, 0.1]`) with Token B's computed buy-order list empty, the
final desired order set still contains a buy order — the code's band test is
strict (`< 0.1`, `> 0.9`), so the boundary prices do not suppress buys. -/
theorem boundary_price_keeps_buys :
    ((0 : ℚ) ≤ 1/10 ∧ (1/10 : ℚ) ≤ 1/10) ∧
    (expected_buy_orders cfg7 (1/10) (9/10) 0 0 5 (some (1/100)) (some (1/2))).2 = [] ∧
    (⟨Side.BUY, TokenId.A, 9/100, (0 : ℝ)⟩ : Order)
      ∈ get_expected_orders cfg7 (1/10) (9/10) 0 0 5 (some (1/100)) (some (1/2)) := by
  -- Token A ladder: [0.09, 0.08]
  have hlistA : set_buy_prices_list cfg7 (some (1/100)) (1/10) = [9/100, 2/25] := by
    rw [set_buy_prices_list]
    have hstart : roundDec (count_decimal_places cfg7.min_tick) (1/10 - 1/100) = 9/100 := by
      rw [show cfg7.min_tick = 1/100 from rfl, cdp100, roundDec, rhe]
      norm_num [Int.fract]
    have hpl : set_buy_prices_pl cfg7 (1/10) = 2/25 := by
      rw [set_buy_prices_pl]
      rw [show cfg7.min_tick = 1/100 from rfl, cdp100]
      rw [show max ((1:ℚ)/10 - cfg7.depth) cfg7.p_min + (1/100 : ℚ) / 10
          = 81/1000 from by norm_num [cfg7]]
      rw [roundDec, rhe]
      norm_num [Int.fract]
    rw [hstart, hpl]
    rw [show cfg7.min_tick = 1/100 from rfl, cdp100]
    rw [show ⌈((9:ℚ)/100 - 2/25) * 10 ^ 2 * 2⌉ = (2:ℤ) from by norm_num]
    rw [show ((2:ℤ).toNat) = 2 from rfl]
    rw [buyPricesLoop, if_pos (by norm_num : (2:ℚ)/25 ≤ 9/100)]
    rw [show cfg7.delta = 1/100 from rfl]
    have hnext1 : roundDec 2 (9/100 - 1/100) = 2/25 := by
      rw [roundDec, rhe]
      norm_num [Int.fract]
    rw [hnext1]
    rw [show (2 : ℕ) = 1 + 1 from rfl]
    rw [buyPricesLoop, if_pos (le_refl ((2:ℚ)/25))]
    have hnext2 : roundDec 2 (2/25 - 1/100) = 7/100 := by
      rw [roundDec, rhe]
      norm_num [Int.fract]
    rw [hnext2]
    rw [show (1 : ℕ) = 0 + 1 from rfl]
    rw [buyPricesLoop, if_neg (by norm_num : ¬ (2:ℚ)/25 ≤ 7/100)]
  -- Token B ladder: empty
  have hlistB : set_buy_prices_list cfg7 (some (1/2)) (9/10) = [] := by
    rw [set_buy_prices_list]
    have hstart : roundDec (count_decimal_places cfg7.min_tick) (9/10 - 1/2) = 2/5 := by
      rw [show cfg7.min_tick = 1/100 from rfl, cdp100, roundDec, rhe]
      norm_num [Int.fract]
    have hpl : set_buy_prices_pl cfg7 (9/10) = 22/25 := by
      rw [set_buy_prices_pl]
      rw [show cfg7.min_tick = 1/100 from rfl, cdp100]
      rw [show max ((9:ℚ)/10 - cfg7.depth) cfg7.p_min + (1/100 : ℚ) / 10
          = 881/1000 from by norm_num [cfg7]]
      rw [roundDec, rhe]
      norm_num [Int.fract]
    rw [hstart, hpl]
    rw [show cfg7.min_tick = 1/100 from rfl, cdp100]
    rw [show ⌈((2:ℚ)/5 - 22/25) * 10 ^ 2 * 2⌉ = (-96:ℤ) from by
      rw [show ((2:ℚ)/5 - 22/25) * 10 ^ 2 * 2 = ((-96 : ℤ) : ℚ) from by norm_num,
        Int.ceil_intCast]]
    rw [show (((-96:ℤ)).toNat) = 0 from rfl]
    rw [buyPricesLoop, if_neg (by norm_num : ¬ (22:ℚ)/25 ≤ 2/5)]
  have hpaB : (amm_prices cfg7 (some (1/100)) (1/10) (1/10)).buy_prices
      = [9/100, 2/25] := hlistA
  have hpbB : (amm_prices cfg7 (some (1/2)) (9/10) (9/10)).buy_prices = [] := hlistB
  -- sell orders (size-0 levels survive because min_size = 0)
  have hsellA : get_sell_orders TokenId.A cfg7
      (amm_prices cfg7 (some (1/100)) (1/10) (1/10)) 0
      = [⟨Side.SELL, TokenId.A, 1/10, (0 : ℝ)⟩] := by
    rw [get_sell_orders_eq TokenId.A cfg7 (amm_prices cfg7 (some (1/100)) (1/10) (1/10))
      0 (roundDec (count_decimal_places cfg7.min_tick) (1/10)) rfl]
    rw [if_pos (by norm_num [cfg7] : cfg7.min_size ≤ (0:ℚ))]
    rw [show cfg7.min_tick = 1/100 from rfl, cdp100]
    have : roundDec 2 (1/10 : ℚ) = 1/10 := by
      rw [roundDec, rhe]
      norm_num [Int.fract]
    rw [this]
    norm_num
  have hsellB : get_sell_orders TokenId.B cfg7
      (amm_prices cfg7 (some (1/2)) (9/10) (9/10)) 0
      = [⟨Side.SELL, TokenId.B, 9/10, (0 : ℝ)⟩] := by
    rw [get_sell_orders_eq TokenId.B cfg7 (amm_prices cfg7 (some (1/2)) (9/10) (9/10))
      0 (roundDec (count_decimal_places cfg7.min_tick) (9/10)) rfl]
    rw [if_pos (by norm_num [cfg7] : cfg7.min_size ≤ (0:ℚ))]
    rw [show cfg7.min_tick = 1/100 from rfl, cdp100]
    have : roundDec 2 (9/10 : ℚ) = 9/10 := by
      rw [roundDec, rhe]
      norm_num [Int.fract]
    rw [this]
    norm_num
  -- collateral allocation gives Token A exactly 0
  have hphib : phi (amm_prices cfg7 (some (1/2)) (9/10) (9/10)) = 0 := phi_nil hpbB
  have hca : (collateral_allocation (amm_prices cfg7 (some (1/100)) (1/10) (1/10))
      (amm_prices cfg7 (some (1/2)) (9/10) (9/10)) 5 0 0).1 = 0 := by
    rw [collateral_allocation]
    by_cases hz : phi (amm_prices cfg7 (some (1/100)) (1/10) (1/10)) = 0
        ∧ phi (amm_prices cfg7 (some (1/2)) (9/10) (9/10)) = 0
    · rw [if_pos hz]
    · rw [if_neg hz]
      rw [hphib]
      have ha0 : ((0:ℝ) - 0 + ((5:ℚ) : ℝ) * 0)
          / (phi (amm_prices cfg7 (some (1/100)) (1/10) (1/10)) + 0) = 0 := by
        simp
      rw [ha0]
      dsimp only
      rw [if_neg (by norm_num : ¬ (0:ℝ) < 0)]
      rw [if_neg (by norm_num : ¬ ((5:ℚ) : ℝ) < 0)]
      exact math_round_down_zero 2
  -- buy orders for Token A at allocation 0: both ladder levels, size 0
  have hbuyA : get_buy_orders TokenId.A cfg7
      (amm_prices cfg7 (some (1/100)) (1/10) (1/10)) 0
      = [⟨Side.BUY, TokenId.A, 9/100, (0 : ℝ)⟩,
         ⟨Side.BUY, TokenId.A, 2/25, (0 : ℝ)⟩] := by
    unfold get_buy_orders
    rw [hpaB]
    simp only [List.map_cons, List.map_nil, buy_size_static_zero]
    rw [diff_pair]
    simp only [sub_zero, List.map_cons, List.map_nil, math_round_down_zero]
    simp only [List.zip_cons_cons, List.zip_nil_right]
    rw [List.filter_cons, List.filter_cons, List.filter_nil]
    rw [if_pos (decide_eq_true (by norm_num [cfg7] : ((cfg7.min_size : ℚ) : ℝ) ≤ 0))]
    rw [if_pos (decide_eq_true (by norm_num [cfg7] : ((cfg7.min_size : ℚ) : ℝ) ≤ 0))]
    simp
  have hbo1 : (expected_buy_orders cfg7 (1/10) (9/10) 0 0 5
      (some (1/100)) (some (1/2))).1
      = [⟨Side.BUY, TokenId.A, 9/100, (0 : ℝ)⟩,
         ⟨Side.BUY, TokenId.A, 2/25, (0 : ℝ)⟩] := by
    rw [expected_buy_orders]
    rw [hsellA, hsellB]
    rw [show best_sell_order_size [⟨Side.SELL, TokenId.A, 1/10, (0 : ℝ)⟩] = (0 : ℝ)
      from rfl]
    rw [show best_sell_order_size [⟨Side.SELL, TokenId.B, 9/10, (0 : ℝ)⟩] = (0 : ℝ)
      from rfl]
    rw [show min (5:ℚ) cfg7.max_collateral = 5 from by norm_num [cfg7]]
    rw [hca]
    exact hbuyA
  have hbo2 : (expected_buy_orders cfg7 (1/10) (9/10) 0 0 5
      (some (1/100)) (some (1/2))).2 = [] := by
    rw [expected_buy_orders]
    exact get_buy_orders_nil _ _ _ _ hpbB
  refine ⟨⟨by norm_num, le_refl _⟩, hbo2, ?_⟩
  rw [get_expected_orders]
  rw [if_neg (by
    intro hcon
    rcases hcon.1 with h | h <;> norm_num at h)]
  rw [hbo1, hbo2]
  rw [hsellA, hsellB]
  simp

/-! ### C1: `synchronize` can raise -/

/-- C1: with a healthy snapshot (nonzero balances) but a competitor token
order book whose bid and ask lists are both empty — exactly what
`ClobApi.get_order_book` returns after a fetch error — `synchronize` raises
`UnboundLocalError`: `bid_spread_greater_than_max_collateral` is read at
`strategy.py:149` but assigned only when both book sides are non-empty.  The
claim (and the spec) say `synchronize` never raises. -/
theorem synchronize_raises_on_empty_book :
    synchronize cfgw (Except.ok ⟨[], some 1, some 1, some 1⟩)
        (some ⟨SideEntry.levels [], SideEntry.levels []⟩)
      = Except.error PyErr.unboundLocalError := by
  have hsnap : strategy_get_order_book (Except.ok ⟨[], some 1, some 1, some 1⟩)
      = Except.ok ⟨[], 1, 1, 1⟩ := by
    rw [strategy_get_order_book]
    dsimp only
    rw [if_neg (by norm_num : ¬ (1 : ℚ) + 1 + 1 = 0)]
  rw [synchronize, hsnap]

end PolyMM
